import Mathlib

/-!
Verification of the `vk` API client transport layer (`transport.go`).

The Go source is shallowly embedded: pure functions become Lean functions,
the response-processing pipeline becomes explicit state passing with an
instrumentation record (close calls on the input stream, whether the
server-error hook ran, whether the raw re-decode step ran), and fallible
operations return `Except`.  The `encoding/json`, `net/url` and `path`
standard-library behaviour the code relies on is embedded alongside it
(a JSON value parser with raw-span capture, percent escaping, `url.Values`
encoding with sorted keys, `path.Join`/`path.Clean`).
-/

set_option autoImplicit false

/-- Fixed API constants.  `transport.go` refers to `defaultHost`,
`defaultScheme`, `defaultPath`, `defaultMethod`, `paramVersion`,
`defaultVersion`, `paramHTTPS`, `defaultHTTPS`, `paramToken`, which are
declared in a sibling file of the repository not present under `src/`.
Modelled from the spec and the repository's own test, which asserts the
produced URL is
`https://api.vk.com/method/users.get?access_token=token&foo=bar&https=1&v=5.35`. -/
def defaultHost : String := "api.vk.com"

def defaultScheme : String := "https"

def defaultPath : String := "/method"

def defaultMethod : String := "GET"

def paramVersion : String := "v"

def defaultVersion : String := "5.35"

def paramHTTPS : String := "https"

def defaultHTTPS : String := "1"

def paramToken : String := "access_token"

/-- Ordered multi-valued parameter mapping modelling Go's
`url.Values = map[string][]string`.  A Go map has unique keys; the
association list keeps per-key value order, and encoding sorts keys, so
the map's lack of key order is immaterial. -/
abbrev Values := List (String × List String)

/-- Embedding of `url.Values.Add`: append `v` to the list stored at `k`,
creating the entry when absent (Go: `v[key] = append(v[key], value)`). -/
def valuesAdd (vals : Values) (k v : String) : Values :=
  match vals with
  | [] => [(k, [v])]
  | (k', vs) :: rest =>
    if k' == k then (k', vs ++ [v]) :: rest else (k', vs) :: valuesAdd rest k v

/-- Values stored at key `k` (empty when the key is absent). -/
def lookupVals (vals : Values) (k : String) : List String :=
  match vals with
  | [] => []
  | (k', vs) :: rest => if k' == k then vs else lookupVals rest k

/-- Flatten a multi-valued mapping into its key/value pairs, per-key order
preserved. -/
def flattenValues (vals : Values) : List (String × String) :=
  vals.flatMap fun kv => kv.2.map (fun v => (kv.1, v))

/-- Request model.  The `Request` struct (`Method`, `Token`, `Values`
fields) is declared in a sibling repository file not present under
`src/`; modelled from the spec's Request data model and the fields
`transport.go` and the tests use. -/
structure Request where
  method : String
  token : String
  values : Values
deriving DecidableEq

/-- Raw is `transport.go`'s `type Raw []byte`, a still-encoded JSON
fragment.  Bytes are modelled as the text they spell. -/
abbrev Raw := String

/-- Embedding of `Raw.MarshalJSON`: `return m, nil` — emits the stored
bytes verbatim and never fails. -/
def Raw.marshalJSON (m : Raw) : Except String Raw := .ok m

/-- Embedding of `Raw.UnmarshalJSON`: `*m = data; return nil` — captures
the source bytes verbatim and never fails. -/
def Raw.unmarshalJSON (data : String) : Except String Raw := .ok data

/-- Embedding of `Raw.Bytes`. -/
def Raw.bytes (m : Raw) : String := m

/-- ErrorInfo carried by a classified application error.  The `Error`
struct is declared in a sibling repository file not present under `src/`.
Modelled from the spec: `{code: integer, message: string, request_params:
ordered list of {key, value} pairs}`, matching the wire fields
`error_code`, `error_msg`, `request_params` exercised by the tests. -/
structure VKErrorInfo where
  code : Int
  msg : String
  requestParams : List (String × String)
deriving DecidableEq

/-- Zero value of the embedded `Error` struct (all fields Go-zero). -/
def zeroErrorInfo : VKErrorInfo := ⟨0, "", []⟩

/-- Error values the pipeline can produce, one constructor per taxonomy
entry of the spec: stream read failure, malformed JSON or type mismatch
(message propagated verbatim), classified application error, and the
fixed `ErrBadResponseCode` sentinel. -/
inductive VKErr where
  | ioError
  | decodeError (msg : String)
  | serverError (e : VKErrorInfo)
  | badResponseCode
deriving DecidableEq

/-- JSON values, the target of the embedded `encoding/json` parser.
Numbers keep their source text (the envelope decoder interprets them when
a Go `int` field requires it). -/
inductive Json where
  | null
  | bool (b : Bool)
  | num (raw : String)
  | str (s : String)
  | arr (elems : List Json)
  | obj (members : List (String × Json))

/-- JSON insignificant whitespace. -/
def isJsonWs (c : Char) : Bool :=
  c == ' ' || c == '\t' || c == '\n' || c == '\r'

def skipWs (cs : List Char) : List Char := cs.dropWhile isJsonWs

def hexVal (c : Char) : Option Nat :=
  if '0' ≤ c ∧ c ≤ '9' then some (c.toNat - 48)
  else if 'a' ≤ c ∧ c ≤ 'f' then some (c.toNat - 87)
  else if 'A' ≤ c ∧ c ≤ 'F' then some (c.toNat - 55)
  else none

/-- Parse the body of a JSON string after the opening quote, decoding the
standard escapes; returns the decoded string and the input after the
closing quote.  Raw control characters are rejected as in `encoding/json`. -/
def parseStrAux : Nat → List Char → List Char → Option (String × List Char)
  | 0, _, _ => none
  | _ + 1, acc, '"' :: rest => some (String.mk acc.reverse, rest)
  | f + 1, acc, '\\' :: e :: rest =>
    if e == '"' then parseStrAux f ('"' :: acc) rest
    else if e == '\\' then parseStrAux f ('\\' :: acc) rest
    else if e == '/' then parseStrAux f ('/' :: acc) rest
    else if e == 'b' then parseStrAux f (Char.ofNat 8 :: acc) rest
    else if e == 'f' then parseStrAux f (Char.ofNat 12 :: acc) rest
    else if e == 'n' then parseStrAux f ('\n' :: acc) rest
    else if e == 'r' then parseStrAux f ('\r' :: acc) rest
    else if e == 't' then parseStrAux f ('\t' :: acc) rest
    else if e == 'u' then
      match rest with
      | h1 :: h2 :: h3 :: h4 :: rest' =>
        match hexVal h1, hexVal h2, hexVal h3, hexVal h4 with
        | some a, some b, some c, some d =>
          parseStrAux f (Char.ofNat (((a * 16 + b) * 16 + c) * 16 + d) :: acc) rest'
        | _, _, _, _ => none
      | _ => none
    else none
  | f + 1, acc, c :: rest =>
    if c.toNat < 32 then none else parseStrAux f (c :: acc) rest
  | _ + 1, _, [] => none

/-- Exponent part of a JSON number literal (optional); `acc` is the text
consumed so far, returned extended. -/
def parseExpPart (acc : List Char) (cs : List Char) : Option (List Char × List Char) :=
  match cs with
  | c :: r =>
    if c == 'e' || c == 'E' then
      let sr : List Char × List Char :=
        match r with
        | s :: r' => if s == '+' || s == '-' then ([s], r') else ([], s :: r')
        | [] => ([], [])
      let ds := sr.2.takeWhile Char.isDigit
      let r2 := sr.2.dropWhile Char.isDigit
      if ds.isEmpty then none else some (acc ++ c :: (sr.1 ++ ds), r2)
    else some (acc, c :: r)
  | [] => some (acc, [])

/-- Fraction part of a JSON number literal (optional). -/
def parseFracPart (acc : List Char) (cs : List Char) : Option (List Char × List Char) :=
  match cs with
  | '.' :: r =>
    let ds := r.takeWhile Char.isDigit
    let r2 := r.dropWhile Char.isDigit
    if ds.isEmpty then none else parseExpPart (acc ++ '.' :: ds) r2
  | _ => parseExpPart acc cs

/-- Parse a JSON number literal (`-? int frac? exp?`, no leading zeros);
returns its source text and the rest of the input. -/
def parseNumber (cs : List Char) : Option (List Char × List Char) :=
  let nr : List Char × List Char :=
    match cs with
    | '-' :: r => (['-'], r)
    | _ => ([], cs)
  match nr.2 with
  | '0' :: r => parseFracPart (nr.1 ++ ['0']) r
  | c :: r =>
    if c.isDigit then
      let ds := r.takeWhile Char.isDigit
      let r2 := r.dropWhile Char.isDigit
      parseFracPart (nr.1 ++ c :: ds) r2
    else none
  | [] => none

mutual

/-- Parse one JSON value starting exactly at the head of the input (the
caller skips leading whitespace, so the consumed span is precisely the
value's source text, as `encoding/json` hands it to `UnmarshalJSON`). -/
def parseValue : Nat → List Char → Option (Json × List Char)
  | 0, _ => none
  | f + 1, cs =>
    match cs with
    | 'n' :: 'u' :: 'l' :: 'l' :: rest => some (.null, rest)
    | 't' :: 'r' :: 'u' :: 'e' :: rest => some (.bool true, rest)
    | 'f' :: 'a' :: 'l' :: 's' :: 'e' :: rest => some (.bool false, rest)
    | '"' :: rest =>
      match parseStrAux f [] rest with
      | some (s, r) => some (.str s, r)
      | none => none
    | '[' :: rest => parseArrayItems f (skipWs rest) []
    | '{' :: rest => parseObjMembers f (skipWs rest) []
    | c :: _ =>
      if c == '-' || c.isDigit then
        match parseNumber cs with
        | some (lit, r) => some (.num (String.mk lit), r)
        | none => none
      else none
    | [] => none

/-- Parse array elements after `[` (whitespace already skipped),
accumulating in reverse. -/
def parseArrayItems : Nat → List Char → List Json → Option (Json × List Char)
  | 0, _, _ => none
  | _ + 1, ']' :: rest, acc => some (.arr acc.reverse, rest)
  | f + 1, cs, acc =>
    match parseValue f cs with
    | none => none
    | some (v, r) =>
      match skipWs r with
      | ',' :: r2 => parseArrayItems f (skipWs r2) (v :: acc)
      | ']' :: r2 => some (.arr (v :: acc).reverse, r2)
      | _ => none

/-- Parse object members after `{` (whitespace already skipped),
accumulating in reverse. -/
def parseObjMembers : Nat → List Char → List (String × Json) → Option (Json × List Char)
  | 0, _, _ => none
  | _ + 1, '}' :: rest, acc => some (.obj acc.reverse, rest)
  | f + 1, '"' :: cs, acc =>
    match parseStrAux f [] cs with
    | none => none
    | some (key, r1) =>
      match skipWs r1 with
      | ':' :: r2 =>
        match parseValue f (skipWs r2) with
        | none => none
        | some (v, r3) =>
          match skipWs r3 with
          | ',' :: r4 => parseObjMembers f (skipWs r4) ((key, v) :: acc)
          | '}' :: r4 => some (.obj ((key, v) :: acc).reverse, r4)
          | _ => none
      | _ => none
  | _ + 1, _, _ => none

end

/-- Embedding of `json.Unmarshal(data, v)`: the whole input must be one
JSON value with only trailing whitespace; the decoded value is then
handed to the target's own decoding function `dec`.  Empty input is
malformed (Go: `unexpected end of JSON input`). -/
def jsonUnmarshal {υ : Type} (s : String) (dec : Json → Except String υ) :
    Except String υ :=
  match parseValue (s.length + 1) (skipWs s.data) with
  | none => .error "invalid JSON input"
  | some (j, rest) =>
    if (skipWs rest).isEmpty then dec j else .error "invalid JSON input"

/-- Interpret a JSON number literal as a Go `int`: `strconv.ParseInt`
accepts only an optional sign followed by digits (no fraction/exponent). -/
def jsonNumToInt (raw : String) : Option Int :=
  let digitsVal : List Char → Nat := fun ds =>
    ds.foldl (fun a c => a * 10 + (c.toNat - 48)) 0
  match raw.data with
  | '-' :: ds =>
    if ds ≠ [] ∧ ds.all Char.isDigit then some (-(digitsVal ds : Int)) else none
  | ds =>
    if ds ≠ [] ∧ ds.all Char.isDigit then some (digitsVal ds : Int) else none

/-- Decode a JSON value into a Go `string` field (`null` is a no-op on
the zero value, anything but a string is a type error). -/
def decodeGoString : Json → Except String String
  | .str s => .ok s
  | .null => .ok ""
  | _ => .error "cannot unmarshal into string"

/-- Decode a JSON value into a Go `int` field. -/
def decodeGoInt : Json → Except String Int
  | .num raw =>
    match jsonNumToInt raw with
    | some i => .ok i
    | none => .error "cannot unmarshal number into int"
  | .null => .ok 0
  | _ => .error "cannot unmarshal into int"

/-- Decode one element of `request_params`: an object with `key` and
`value` string fields. -/
def decodeParam (j : Json) : Except String (String × String) :=
  match j with
  | .obj ms =>
    ms.foldlM
      (fun (p : String × String) kv =>
        if kv.1 == "key" then (decodeGoString kv.2).map fun s => (s, p.2)
        else if kv.1 == "value" then (decodeGoString kv.2).map fun s => (p.1, s)
        else .ok p)
      ("", "")
  | .null => .ok ("", "")
  | _ => .error "cannot unmarshal into param"

/-- Decode the `request_params` array. -/
def decodeParams : Json → Except String (List (String × String))
  | .arr xs => xs.mapM decodeParam
  | .null => .ok []
  | _ => .error "cannot unmarshal into params"

/-- Decode one member of the wire `error` object into the `Error` struct
(unknown members are dropped, as `encoding/json` does). -/
def applyErrorMember (e : VKErrorInfo) (kv : String × Json) :
    Except String VKErrorInfo :=
  if kv.1 == "error_code" then (decodeGoInt kv.2).map fun i => { e with code := i }
  else if kv.1 == "error_msg" then (decodeGoString kv.2).map fun s => { e with msg := s }
  else if kv.1 == "request_params" then
    (decodeParams kv.2).map fun ps => { e with requestParams := ps }
  else .ok e

/-- Decode a JSON value into the embedded `Error` struct, merging into
the current value `init` as `encoding/json` does. -/
def decodeErrorInfo (init : VKErrorInfo) (j : Json) : Except String VKErrorInfo :=
  match j with
  | .obj ms => ms.foldlM applyErrorMember init
  | .null => .ok init
  | _ => .error "cannot unmarshal into Error"

/-- RawResponse is `transport.go`'s internal envelope target: an embedded
`Error` plus a `response` field of type `Raw`.  The `request` field
models the `Request` the embedded `Error` struct retains via
`setRequest` (the `Error` struct lives in a sibling repository file;
modelled from the spec: the target retains a copy of the originating
Request). -/
structure RawResponse where
  error : VKErrorInfo
  response : Raw
  request : Option Request
deriving DecidableEq

/-- Zero value of `RawResponse`. -/
def zeroRawResponse : RawResponse := ⟨zeroErrorInfo, "", none⟩

/-- Modelled from the spec: `Error.ServerError` (in a sibling repository
file not under `src/`) inspects the embedded ErrorInfo and returns the
classified application error iff it is populated (nonzero code); the
repository test decodes `error_code` 10 and observes a classified server
error, and a reply without an `error` object yields none. -/
def errorServerError (e : VKErrorInfo) : Option VKErrorInfo :=
  if e.code == 0 then none else some e

/-- Process the members of the top-level envelope object against a
`RawResponse` target: `error` decodes into the embedded `Error` struct,
`response` is captured verbatim by `Raw.UnmarshalJSON` (the exact source
span of the value), all other members are dropped. -/
def updateEnvelope (st : RawResponse) (key : String) (v : Json) (raw : String) :
    Except String RawResponse :=
  if key == "error" then (decodeErrorInfo st.error v).map fun e => { st with error := e }
  else if key == "response" then (Raw.unmarshalJSON raw).map fun rw => { st with response := rw }
  else .ok st

/-- Member loop of the envelope decode: parse `"key": value` pairs,
computing the raw source span of every value so `response` can be
captured verbatim. -/
def decodeMembers : Nat → List Char → RawResponse → Except String (RawResponse × List Char)
  | 0, _, _ => .error "invalid JSON input"
  | _ + 1, '}' :: rest, st => .ok (st, rest)
  | f + 1, '"' :: cs, st =>
    match parseStrAux f [] cs with
    | none => .error "invalid JSON input"
    | some (key, r1) =>
      match skipWs r1 with
      | ':' :: r2 =>
        let r3 := skipWs r2
        match parseValue f r3 with
        | none => .error "invalid JSON input"
        | some (v, r4) =>
          let raw := String.mk (r3.take (r3.length - r4.length))
          match updateEnvelope st key v raw with
          | .error m => .error m
          | .ok st' =>
            match skipWs r4 with
            | ',' :: r5 => decodeMembers f (skipWs r5) st'
            | '}' :: r5 => .ok (st', r5)
            | _ => .error "invalid JSON input"
      | _ => .error "invalid JSON input"
  | _ + 1, _, _ => .error "invalid JSON input"

/-- Embedding of `json.NewDecoder(input).Decode(target)` for a
`RawResponse` target, merging into `st`: reads one JSON value, ignoring
anything after it.  A top-level `null` is a no-op, a non-object value is
a type error, malformed input or empty input is a decode error. -/
def decodeRawResponseInto (s : String) (st : RawResponse) : Except String RawResponse :=
  match skipWs s.data with
  | '{' :: rest => (decodeMembers (s.length + 1) (skipWs rest) st).map Prod.fst
  | 'n' :: 'u' :: 'l' :: 'l' :: _ => .ok st
  | _ => .error "cannot unmarshal into RawResponse"

/-- Envelope decode from the zero target, as `Raw` does with
`raw := &RawResponse{}`. -/
def decodeRawResponse (s : String) : Except String RawResponse :=
  decodeRawResponseInto s zeroRawResponse

/-- Readable byte stream handed to the processor.  `content = none`
models a stream whose read fails before any bytes are produced;
`closable` says whether the stream also implements `io.ReadCloser`. -/
structure ByteStream where
  content : Option String
  closable : Bool
deriving DecidableEq

/-- Operations a decode target offers, mirroring the Go `Response`
interface (`ServerError`, `setRequest`) together with the
`encoding/json` decode step into that target's own field layout. -/
structure ResponseOps (τ : Type) where
  decode : String → τ → Except String τ
  serverError : τ → Option VKErrorInfo
  setRequest : Request → τ → τ

/-- Concrete operations of the `RawResponse` target. -/
def rawResponseOps : ResponseOps RawResponse where
  decode := fun body t => decodeRawResponseInto body t
  serverError := fun t => errorServerError t.error
  setRequest := fun rq t => { t with request := some rq }

/-- Outcome of a processing run, with instrumentation: the number of
`Close` calls issued on the input stream and whether the target's
`ServerError` hook was invoked. -/
structure ProcResult (τ : Type) where
  result : Except VKErr τ
  closes : Nat
  hookCalled : Bool

/-- Outcome of a raw-mode processing run; additionally records whether
the secondary re-decode of the captured fragment ran. -/
structure RawResult (υ : Type) where
  result : Except VKErr υ
  closes : Nat
  hookCalled : Bool
  reDecoded : Bool

/-- Embedding of `vkResponseProcessor`: holds the input stream. -/
structure vkResponseProcessor where
  input : ByteStream

/-- Embedding of `vkResponseProcessor.To`: close the input exactly once
when it is closable (the deferred `rc.Close()`), decode the envelope into
the target, propagate a decode failure unchanged, otherwise return the
target's `ServerError()`. -/
def vkResponseProcessor.To {τ : Type} (d : vkResponseProcessor)
    (ops : ResponseOps τ) (t : τ) : ProcResult τ :=
  let closes := if d.input.closable then 1 else 0
  match d.input.content with
  | none => ⟨.error .ioError, closes, false⟩
  | some body =>
    match ops.decode body t with
    | .error m => ⟨.error (.decodeError m), closes, false⟩
    | .ok t' =>
      match ops.serverError t' with
      | some e => ⟨.error (.serverError e), closes, true⟩
      | none => ⟨.ok t', closes, true⟩

/-- Embedding of `vkResponseProcessor.Raw`: run `To` on a fresh
`RawResponse`, propagate its failure unchanged, otherwise re-decode the
captured fragment bytes into the caller's target via `json.Unmarshal`. -/
def vkResponseProcessor.Raw {υ : Type} (d : vkResponseProcessor)
    (dec : Json → Except String υ) : RawResult υ :=
  let pr := d.To rawResponseOps zeroRawResponse
  match pr.result with
  | .error e => ⟨.error e, pr.closes, pr.hookCalled, false⟩
  | .ok raw =>
    ⟨(jsonUnmarshal raw.response.bytes dec).mapError VKErr.decodeError,
      pr.closes, pr.hookCalled, true⟩

/-- Embedding of `Process`. -/
def Process (input : ByteStream) : vkResponseProcessor := ⟨input⟩

/-- UTF-8 bytes of a character, as Go iterates a string byte-wise when
escaping. -/
def utf8Bytes (c : Char) : List Nat :=
  let n := c.toNat
  if n < 128 then [n]
  else if n < 2048 then [192 + n / 64, 128 + n % 64]
  else if n < 65536 then [224 + n / 4096, 128 + (n / 64) % 64, 128 + n % 64]
  else [240 + n / 262144, 128 + (n / 4096) % 64, 128 + (n / 64) % 64, 128 + n % 64]

/-- ASCII alphanumeric byte. -/
def isAlphaNumByte (b : Nat) : Bool :=
  (48 ≤ b && b ≤ 57) || (65 ≤ b && b ≤ 90) || (97 ≤ b && b ≤ 122)

/-- Upper-case hex digit, as `net/url` percent-encoding emits. -/
def hexDigitUpper (n : Nat) : Char :=
  if n < 10 then Char.ofNat (48 + n) else Char.ofNat (55 + n)

/-- Embedding of `net/url`'s `shouldEscape` in query-component mode:
only unreserved bytes (alphanumeric and `-._~`) stay literal. -/
def shouldEscapeQuery (b : Nat) : Bool :=
  !(isAlphaNumByte b || b == 45 || b == 95 || b == 46 || b == 126)

/-- Embedding of `net/url`'s `shouldEscape` in path mode: unreserved
bytes plus the sub-delims the path may carry stay literal
(`$ & + , / : ; = @`); `?` and everything else is escaped. -/
def shouldEscapePath (b : Nat) : Bool :=
  !(isAlphaNumByte b || b == 45 || b == 95 || b == 46 || b == 126 ||
    b == 36 || b == 38 || b == 43 || b == 44 || b == 47 || b == 58 ||
    b == 59 || b == 61 || b == 64)

/-- Escape one byte for the query component (`QueryEscape`): space
becomes `+`, unreserved bytes stay, the rest become `%XX`. -/
def escQueryByte (b : Nat) : List Char :=
  if b == 32 then ['+']
  else if shouldEscapeQuery b then ['%', hexDigitUpper (b / 16), hexDigitUpper (b % 16)]
  else [Char.ofNat b]

/-- Escape one byte for the path component (`EscapedPath`). -/
def escPathByte (b : Nat) : List Char :=
  if shouldEscapePath b then ['%', hexDigitUpper (b / 16), hexDigitUpper (b % 16)]
  else [Char.ofNat b]

/-- `url.QueryEscape` over the UTF-8 bytes of a string. -/
def queryEscapeChars (cs : List Char) : List Char :=
  cs.flatMap fun c => (utf8Bytes c).flatMap escQueryByte

/-- `url.URL.EscapedPath` over the UTF-8 bytes of the path. -/
def pathEscapeChars (cs : List Char) : List Char :=
  cs.flatMap fun c => (utf8Bytes c).flatMap escPathByte

/-- One `key=value` fragment of an encoded query. -/
def encodePair (k v : String) : List Char :=
  queryEscapeChars k.data ++ '=' :: queryEscapeChars v.data

/-- Join fragments with `&`.  `url.Values.Encode` writes `&` whenever
its buffer is nonempty; every fragment contains `=`, so this equals
joining with a separator. -/
def encodeParts : List (List Char) → List Char
  | [] => []
  | [p] => p
  | p :: rest => p ++ '&' :: encodeParts rest

/-- Lexicographic comparison on code points, i.e. the ascending byte
order `sort.Strings` uses (UTF-8 byte order equals code-point order). -/
def charListLt : List Char → List Char → Bool
  | _, [] => false
  | [], _ :: _ => true
  | a :: as, b :: bs =>
    if a.toNat < b.toNat then true
    else if a.toNat == b.toNat then charListLt as bs
    else false

/-- Key order used by `url.Values.Encode` (`sort.Strings` on the keys). -/
def keyLe (a b : String × List String) : Bool :=
  charListLt a.1.data b.1.data || a.1 == b.1

def insertSortedKey (p : String × List String) : Values → Values
  | [] => [p]
  | q :: rest => if keyLe p q then p :: q :: rest else q :: insertSortedKey p rest

/-- Sort entries by key.  `url.Values` keys are unique (it is a Go map),
so stability is immaterial. -/
def sortByKey : Values → Values
  | [] => []
  | p :: rest => insertSortedKey p (sortByKey rest)

/-- Embedding of `url.Values.Encode`: keys sorted, then for each key its
values in order, each `QueryEscape(k)=QueryEscape(v)`, joined by `&`. -/
def valuesEncodeChars (vals : Values) : List Char :=
  encodeParts ((sortByKey vals).flatMap fun kv => kv.2.map fun v => encodePair kv.1 v)

def valuesEncode (vals : Values) : String :=
  String.mk (valuesEncodeChars vals)

/-- Pop loop of `path.Clean`'s `..` handling on the reversed output
buffer: drop the last character, then keep dropping while the buffer is
longer than `dotdot` and the dropped character was not `/`. -/
def popTo (dotdot : Nat) : List Char → List Char
  | [] => []
  | c :: rest =>
    if dotdot < rest.length && c != '/' then popTo dotdot rest else rest

/-- Main loop of Go's `path.Clean` (the lazybuf algorithm).  `out` is
the output buffer reversed; `dotdot` is the buffer length below which
`..` may not pop. -/
def cleanLoop : Nat → Bool → List Char → List Char → Nat → List Char
  | 0, _, _, out, _ => out
  | _ + 1, _, [], out, _ => out
  | f + 1, rooted, c :: rest, out, dotdot =>
    if c == '/' then
      cleanLoop f rooted rest out dotdot
    else if c == '.' && (rest.isEmpty || rest.head? == some '/') then
      cleanLoop f rooted rest out dotdot
    else if c == '.' && rest.head? == some '.' &&
        (rest.tail.isEmpty || rest.tail.head? == some '/') then
      if dotdot < out.length then
        cleanLoop f rooted rest.tail (popTo dotdot out) dotdot
      else if !rooted then
        let out1 := if out.length > 0 then '/' :: out else out
        let out2 := '.' :: '.' :: out1
        cleanLoop f rooted rest.tail out2 out2.length
      else
        cleanLoop f rooted rest.tail out dotdot
    else
      let seg := (c :: rest).takeWhile (fun x => x != '/')
      let rem := (c :: rest).dropWhile (fun x => x != '/')
      let out1 :=
        if (rooted && out.length != 1) || (!rooted && out.length != 0) then
          '/' :: out
        else out
      cleanLoop f rooted rem (seg.reverse ++ out1) dotdot

/-- Embedding of Go's `path.Clean`. -/
def pathClean (s : String) : String :=
  match s.data with
  | [] => "."
  | c :: rest =>
    let rooted := c == '/'
    let p0 := if rooted then rest else c :: rest
    let out0 : List Char := if rooted then ['/'] else []
    let dd0 : Nat := if rooted then 1 else 0
    let out := cleanLoop (s.length + 1) rooted p0 out0 dd0
    if out.isEmpty then "." else String.mk out.reverse

/-- Embedding of Go's `path.Join` for two elements: concatenate the
non-empty elements with `/` and `Clean` the result (empty when both
elements are empty). -/
def pathJoin (a b : String) : String :=
  if a.length == 0 && b.length == 0 then ""
  else if a.length == 0 then pathClean b
  else pathClean (a ++ "/" ++ b)

/-- HTTP request descriptor produced by `Request.HTTP` (the fields of
the `url.URL` the Go code builds, plus the fixed verb). -/
structure HTTPRequestDescriptor where
  verb : String
  scheme : String
  host : String
  path : String
  rawQuery : String
deriving DecidableEq

/-- Parameter set accumulated by `Request.HTTP`: the caller's parameters
copied verbatim, then `Add(paramVersion, defaultVersion)`,
`Add(paramHTTPS, defaultHTTPS)`, and — only when the token is non-empty —
`Add(paramToken, r.Token)`. -/
def requestValues (r : Request) : Values :=
  let vals := r.values
  let vals := valuesAdd vals paramVersion defaultVersion
  let vals := valuesAdd vals paramHTTPS defaultHTTPS
  if r.token.length != 0 then valuesAdd vals paramToken r.token else vals

/-- Embedding of `Request.HTTP`: fixed verb, scheme and host, path
joined from the fixed prefix and the method name, query encoded from the
accumulated parameter set. -/
def Request.HTTP (r : Request) : HTTPRequestDescriptor :=
  { verb := defaultMethod
    scheme := defaultScheme
    host := defaultHost
    path := pathJoin defaultPath r.method
    rawQuery := valuesEncode (requestValues r) }

/-- Character-level control-character test: `net/url.Parse` rejects a
URL containing an ASCII control byte.  Control bytes occur in UTF-8
exactly as the direct encodings of control code points, so testing the
characters is equivalent to Go's byte scan. -/
def isCtlChar (c : Char) : Bool :=
  c.toNat < 32 || c.toNat == 127

/-- Character sequence of `u.String()` for the URL `Request.HTTP`
builds: scheme, `://`, host, escaped path, and `?` plus the raw query
when the query is nonempty. -/
def urlChars (d : HTTPRequestDescriptor) : List Char :=
  d.scheme.data ++ (String.data "://") ++ d.host.data ++
    pathEscapeChars d.path.data ++
    (if d.rawQuery.data.isEmpty then [] else '?' :: d.rawQuery.data)

/-- The condition under which `http.NewRequest` inside `Request.HTTP`
would return a non-nil error and `must` would abort the process: with
the verb fixed to `GET`, the only failure is `url.Parse` rejecting the
constructed URL string, which it does exactly when the string carries an
ASCII control character. -/
def newRequestFails (r : Request) : Bool :=
  (urlChars (Request.HTTP r)).any isCtlChar

/-- Injected transport reply: a status code and a readable body. -/
structure HTTPResponse where
  statusCode : Nat
  body : ByteStream

/-- Embedding of `Client`: holds the injected `HTTPClient` capability as
a function from the request descriptor to either a transport failure or
a reply. -/
structure Client where
  httpClient : HTTPRequestDescriptor → Except VKErr HTTPResponse

/-- Outcome of `Client.Do` with the final state of the caller's target
and whether the body decode pipeline ran.  On a failed decode path the
target may be partially populated by the decoder; the embedding keeps
the pre-decode state there, which no claim inspects. -/
structure DoResult (τ : Type) where
  result : Except VKErr τ
  target : τ
  bodyProcessed : Bool

/-- Embedding of `Client.Do`: attach the Request to the target first,
build the HTTP descriptor, invoke the transport; propagate a transport
failure unchanged, replace a non-200 status with the fixed
`ErrBadResponseCode` sentinel without touching the body, otherwise hand
the body to the full-envelope decode path. -/
def Client.Do {τ : Type} (c : Client) (request : Request)
    (ops : ResponseOps τ) (t : τ) : DoResult τ :=
  let t1 := ops.setRequest request t
  let req := Request.HTTP request
  match c.httpClient req with
  | .error e => ⟨.error e, t1, false⟩
  | .ok res =>
    if res.statusCode != 200 then ⟨.error .badResponseCode, t1, false⟩
    else
      let pr := (Process res.body).To ops t1
      match pr.result with
      | .ok t' => ⟨.ok t', t', true⟩
      | .error e => ⟨.error e, t1, true⟩

/-- Query string as the spec describes it, for comparison with the one
the code produces: the caller's pairs in their original order, followed
by the protocol parameters in fixed order (version, https-flag, and the
access token when present).  This definition follows the spec's words,
not the source. -/
def claimOrderQuery (r : Request) : String :=
  let pairs :=
    flattenValues r.values ++
      [(paramVersion, defaultVersion), (paramHTTPS, defaultHTTPS)] ++
      (if r.token.length != 0 then [(paramToken, r.token)] else [])
  String.mk (encodeParts (pairs.map fun kv => encodePair kv.1 kv.2))

/-- C7: Raw fragments pass through serialization as an identity: decoding
captures the exact source bytes and never fails, encoding emits the
stored bytes verbatim and never fails, so decode followed by encode is
byte-identical to the source. -/
theorem raw_roundtrip_identity (src : String) (m : Raw) :
    Raw.unmarshalJSON src = .ok src ∧
    Raw.marshalJSON m = .ok m.bytes ∧
    (Raw.unmarshalJSON src).bind Raw.marshalJSON = .ok src :=
  ⟨rfl, rfl, rfl⟩

/-- Flattening after `Add` is the original flattening with the new pair
appended, up to permutation (the pair lands inside its key's group). -/
theorem flattenValues_valuesAdd (vals : Values) (k v : String) :
    List.Perm (flattenValues (valuesAdd vals k v)) (flattenValues vals ++ [(k, v)]) := by
  induction vals with
  | nil => simp [valuesAdd, flattenValues]
  | cons p rest ih =>
    obtain ⟨k', vs⟩ := p
    by_cases h : k' == k
    · have hk : k' = k := eq_of_beq h
      subst hk
      simp only [valuesAdd, h, if_pos, flattenValues, List.flatMap_cons, List.map_append]
      simp only [List.append_assoc, List.map_cons, List.map_nil]
      exact List.Perm.append_left _ List.perm_append_comm
    · simp only [valuesAdd, h, Bool.false_eq_true, if_neg, flattenValues, List.flatMap_cons,
        List.append_assoc]
      exact List.Perm.append_left _ ih

/-- Values stored at the key just added: the old values with the new one
appended. -/
theorem lookupVals_valuesAdd_self (vals : Values) (k v : String) :
    lookupVals (valuesAdd vals k v) k = lookupVals vals k ++ [v] := by
  induction vals with
  | nil => simp [valuesAdd, lookupVals]
  | cons p rest ih =>
    obtain ⟨k', vs⟩ := p
    by_cases h : k' == k
    · simp [valuesAdd, h, lookupVals]
    · simp [valuesAdd, h, lookupVals, ih]

/-- Adding at one key leaves the values of any other key unchanged. -/
theorem lookupVals_valuesAdd_ne (vals : Values) (k' k v : String) (h : k' ≠ k) :
    lookupVals (valuesAdd vals k' v) k = lookupVals vals k := by
  induction vals with
  | nil =>
    have : (k' == k) = false := beq_eq_false_iff_ne.2 h
    simp [valuesAdd, lookupVals, this]
  | cons p rest ih =>
    obtain ⟨k'', vs⟩ := p
    by_cases h2 : k'' == k'
    · have hk : k'' = k' := eq_of_beq h2
      subst hk
      have : (k'' == k) = false := beq_eq_false_iff_ne.2 h
      simp [valuesAdd, h2, lookupVals, this]
    · by_cases h3 : k'' == k
      · simp [valuesAdd, h2, lookupVals, h3]
      · simp [valuesAdd, h2, lookupVals, h3, ih]

/-- C1 counterexample: at a request with caller parameter `foo=bar` and a
token, the query string the code produces (sorted keys, per the
repository's own test expectation) differs from the claim's
caller-params-first ordering. -/
theorem c1_query_order_counterexample :
    (Request.HTTP ⟨"users.get", "token", [("foo", ["bar"])]⟩).rawQuery ≠
      claimOrderQuery ⟨"users.get", "token", [("foo", ["bar"])]⟩ := by
  decide

/-- C1 (amended): for every Request with a non-empty token, the produced
descriptor has the fixed host, the path joined from the fixed prefix and
the method name, and a query that is the standard form-encoding of
exactly the caller-supplied parameters plus the protocol parameters
`v`, `https` and `access_token` — but encoded with keys sorted
lexicographically (values of one key keeping insertion order), not with
the caller's parameters first. -/
theorem http_descriptor_query_contents (r : Request) (h : r.token.length ≠ 0) :
    (Request.HTTP r).host = defaultHost ∧
    (Request.HTTP r).path = pathJoin defaultPath r.method ∧
    (Request.HTTP r).rawQuery = valuesEncode (requestValues r) ∧
    List.Perm (flattenValues (requestValues r))
      (flattenValues r.values ++
        [(paramVersion, defaultVersion), (paramHTTPS, defaultHTTPS),
          (paramToken, r.token)]) := by
  refine ⟨rfl, rfl, rfl, ?_⟩
  have htok : (r.token.length != 0) = true := by
    simpa [bne_iff_ne] using h
  simp only [requestValues, htok, if_pos]
  have h1 := flattenValues_valuesAdd r.values paramVersion defaultVersion
  have h2 := flattenValues_valuesAdd (valuesAdd r.values paramVersion defaultVersion)
    paramHTTPS defaultHTTPS
  have h3 := flattenValues_valuesAdd
    (valuesAdd (valuesAdd r.values paramVersion defaultVersion) paramHTTPS defaultHTTPS)
    paramToken r.token
  refine h3.trans ?_
  refine (h2.append_right _).trans ?_
  refine ((h1.append_right _).append_right _).trans ?_
  simp [List.append_assoc]

/-- C1 witness: the amended statement holds at the request the
repository's test uses. -/
theorem http_descriptor_query_contents_witness :
    (⟨"users.get", "token", [("foo", ["bar"])]⟩ : Request).token.length ≠ 0 ∧
    ((Request.HTTP ⟨"users.get", "token", [("foo", ["bar"])]⟩).host = defaultHost ∧
      (Request.HTTP ⟨"users.get", "token", [("foo", ["bar"])]⟩).path =
        pathJoin defaultPath "users.get" ∧
      (Request.HTTP ⟨"users.get", "token", [("foo", ["bar"])]⟩).rawQuery =
        valuesEncode (requestValues ⟨"users.get", "token", [("foo", ["bar"])]⟩) ∧
      List.Perm (flattenValues (requestValues ⟨"users.get", "token", [("foo", ["bar"])]⟩))
        (flattenValues [("foo", ["bar"])] ++
          [(paramVersion, defaultVersion), (paramHTTPS, defaultHTTPS),
            (paramToken, "token")])) :=
  ⟨by decide, http_descriptor_query_contents ⟨"users.get", "token", [("foo", ["bar"])]⟩ (by decide)⟩

/-- C2 counterexample: with caller parameter `v=1.0` colliding with the
reserved version key, the protocol's value does not win — the final
parameter set stores the caller's value first and the protocol's value
appended after it, and the encoded query carries both. -/
theorem c2_reserved_key_counterexample :
    lookupVals (requestValues ⟨"m", "t", [("v", ["1.0"])]⟩) paramVersion ≠
      [defaultVersion] ∧
    lookupVals (requestValues ⟨"m", "t", [("v", ["1.0"])]⟩) paramVersion =
      ["1.0", defaultVersion] ∧
    (Request.HTTP ⟨"m", "t", [("v", ["1.0"])]⟩).rawQuery =
      "access_token=t&https=1&v=1.0&v=5.35" := by
  refine ⟨by decide, by decide, by decide⟩

/-- C2 (amended): when a caller-supplied key equals a protocol-reserved
key, `Add` appends the protocol's value after the caller's values for
that key, so the encoded query carries both — caller's value(s) first,
the reserved value last — instead of the reserved value replacing the
caller's. -/
theorem reserved_key_values_appended (r : Request) :
    lookupVals (requestValues r) paramVersion =
      lookupVals r.values paramVersion ++ [defaultVersion] ∧
    lookupVals (requestValues r) paramHTTPS =
      lookupVals r.values paramHTTPS ++ [defaultHTTPS] ∧
    (r.token.length ≠ 0 →
      lookupVals (requestValues r) paramToken =
        lookupVals r.values paramToken ++ [r.token]) := by
  by_cases htok : (r.token.length != 0) = true
  · simp only [requestValues, htok, if_pos]
    refine ⟨?_, ?_, fun _ => ?_⟩
    · rw [lookupVals_valuesAdd_ne _ paramToken paramVersion _ (by decide),
        lookupVals_valuesAdd_ne _ paramHTTPS paramVersion _ (by decide),
        lookupVals_valuesAdd_self]
    · rw [lookupVals_valuesAdd_ne _ paramToken paramHTTPS _ (by decide),
        lookupVals_valuesAdd_self,
        lookupVals_valuesAdd_ne _ paramVersion paramHTTPS _ (by decide)]
    · rw [lookupVals_valuesAdd_self,
        lookupVals_valuesAdd_ne _ paramHTTPS paramToken _ (by decide),
        lookupVals_valuesAdd_ne _ paramVersion paramToken _ (by decide)]
  · have htok' : (r.token.length != 0) = false := by
      simpa using htok
    simp only [requestValues, htok', Bool.false_eq_true, if_false]
    refine ⟨?_, ?_, fun hc => ?_⟩
    · rw [lookupVals_valuesAdd_ne _ paramHTTPS paramVersion _ (by decide),
        lookupVals_valuesAdd_self]
    · rw [lookupVals_valuesAdd_self,
        lookupVals_valuesAdd_ne _ paramVersion paramHTTPS _ (by decide)]
    · exact absurd hc (by simpa [bne_iff_ne] using htok')

/-- C2 witness: the amended statement holds at the colliding request,
where the token branch's hypothesis is satisfied. -/
theorem reserved_key_values_appended_witness :
    (⟨"m", "t", [("v", ["1.0"])]⟩ : Request).token.length ≠ 0 ∧
    lookupVals (requestValues ⟨"m", "t", [("v", ["1.0"])]⟩) paramToken =
      lookupVals ([("v", ["1.0"])] : Values) paramToken ++ ["t"] ∧
    lookupVals (requestValues ⟨"m", "t", [("v", ["1.0"])]⟩) paramVersion =
      lookupVals ([("v", ["1.0"])] : Values) paramVersion ++ [defaultVersion] :=
  ⟨by decide,
    (reserved_key_values_appended ⟨"m", "t", [("v", ["1.0"])]⟩).2.2 (by decide),
    (reserved_key_values_appended ⟨"m", "t", [("v", ["1.0"])]⟩).1⟩

/-- C3: for every input stream that exposes a close operation, both the
full-envelope path `To` and the raw path `Raw` close the stream exactly
once on every exit path (the count is computed uniformly over successful
decode, decode failure, error-check failure and raw re-decode failure),
and never close a stream that is not closable. -/
theorem processor_closes_input_once {τ υ : Type} (s : ByteStream)
    (ops : ResponseOps τ) (t : τ) (dec : Json → Except String υ) :
    ((Process s).To ops t).closes = (if s.closable then 1 else 0) ∧
    ((Process s).Raw dec).closes = (if s.closable then 1 else 0) := by
  have hTo : ∀ (σ : Type) (o : ResponseOps σ) (x : σ),
      ((Process s).To o x).closes = (if s.closable then 1 else 0) := by
    obtain ⟨content, closable⟩ := s
    intro σ o x
    cases content with
    | none => simp [Process, vkResponseProcessor.To]
    | some body =>
      cases hd : o.decode body x with
      | error m => simp [Process, vkResponseProcessor.To, hd]
      | ok t' =>
        cases hs : o.serverError t' with
        | none => simp [Process, vkResponseProcessor.To, hd, hs]
        | some e => simp [Process, vkResponseProcessor.To, hd, hs]
  refine ⟨hTo τ ops t, ?_⟩
  have hr := hTo RawResponse rawResponseOps zeroRawResponse
  show (vkResponseProcessor.Raw ⟨s⟩ dec).closes = _
  unfold vkResponseProcessor.Raw
  cases h : ((⟨s⟩ : vkResponseProcessor).To rawResponseOps zeroRawResponse).result with
  | error e => simpa [h] using hr
  | ok raw => simpa [h] using hr

/-- C4: when the envelope decode fails — a stream whose read fails
before any bytes are produced, or a body the target's decode step
rejects — `To` returns that failure unchanged and the target's
`ServerError` hook is never invoked. -/
theorem decode_failure_propagates {τ : Type} (s : ByteStream)
    (ops : ResponseOps τ) (t : τ) :
    (s.content = none →
      ((Process s).To ops t).result = .error .ioError ∧
      ((Process s).To ops t).hookCalled = false) ∧
    (∀ body m, s.content = some body → ops.decode body t = .error m →
      ((Process s).To ops t).result = .error (.decodeError m) ∧
      ((Process s).To ops t).hookCalled = false) := by
  obtain ⟨content, closable⟩ := s
  constructor
  · intro h
    simp only at h
    subst h
    constructor <;> simp [Process, vkResponseProcessor.To]
  · intro body m hb hd
    simp only at hb
    subst hb
    constructor <;> simp [Process, vkResponseProcessor.To, hd]

/-- C4 witness: a malformed body and a failing stream at concrete
inputs. -/
theorem decode_failure_propagates_witness :
    ((⟨some "xx", true⟩ : ByteStream).content = some "xx" ∧
      rawResponseOps.decode "xx" zeroRawResponse =
        .error "cannot unmarshal into RawResponse" ∧
      ((Process ⟨some "xx", true⟩).To rawResponseOps zeroRawResponse).result =
        .error (.decodeError "cannot unmarshal into RawResponse") ∧
      ((Process ⟨some "xx", true⟩).To rawResponseOps zeroRawResponse).hookCalled = false) ∧
    ((⟨none, true⟩ : ByteStream).content = none ∧
      ((Process ⟨none, true⟩).To rawResponseOps zeroRawResponse).result = .error .ioError ∧
      ((Process ⟨none, true⟩).To rawResponseOps zeroRawResponse).hookCalled = false) :=
  ⟨⟨rfl, rfl,
    ((decode_failure_propagates ⟨some "xx", true⟩ rawResponseOps zeroRawResponse).2
      "xx" "cannot unmarshal into RawResponse" rfl rfl).1,
    ((decode_failure_propagates ⟨some "xx", true⟩ rawResponseOps zeroRawResponse).2
      "xx" "cannot unmarshal into RawResponse" rfl rfl).2⟩,
   ⟨rfl,
    ((decode_failure_propagates ⟨none, true⟩ rawResponseOps zeroRawResponse).1 rfl).1,
    ((decode_failure_propagates ⟨none, true⟩ rawResponseOps zeroRawResponse).1 rfl).2⟩⟩

/-- C5: raw-mode processing decodes the envelope into the internal
`RawResponse` target through the same `To` path and error-check hook;
when the envelope carries a populated error object the classified
application error is returned and the fragment is never re-decoded; only
when the envelope decode and the error check both succeed is the
captured fragment re-decoded into the caller's target, and a failed
envelope decode also precludes any re-decode. -/
theorem raw_mode_error_check_before_redecode {υ : Type} (s : ByteStream)
    (dec : Json → Except String υ) :
    (∀ body r, s.content = some body → decodeRawResponse body = .ok r →
      r.error.code ≠ 0 →
      ((Process s).Raw dec).result = .error (.serverError r.error) ∧
      ((Process s).Raw dec).reDecoded = false) ∧
    (∀ body r, s.content = some body → decodeRawResponse body = .ok r →
      r.error.code = 0 →
      ((Process s).Raw dec).reDecoded = true ∧
      ((Process s).Raw dec).result =
        (jsonUnmarshal (Raw.bytes r.response) dec).mapError VKErr.decodeError) ∧
    (∀ e, ((Process s).To rawResponseOps zeroRawResponse).result = .error e →
      ((Process s).Raw dec).reDecoded = false) := by
  obtain ⟨content, closable⟩ := s
  refine ⟨?_, ?_, ?_⟩
  · intro body r hb hdec hcode
    simp only at hb
    subst hb
    have hd : rawResponseOps.decode body zeroRawResponse = .ok r := hdec
    have hs : rawResponseOps.serverError r = some r.error := by
      simp [rawResponseOps, errorServerError, hcode]
    constructor <;>
      simp [Process, vkResponseProcessor.Raw, vkResponseProcessor.To, hd, hs, hcode]
  · intro body r hb hdec hcode
    simp only at hb
    subst hb
    have hd : rawResponseOps.decode body zeroRawResponse = .ok r := hdec
    have hs : rawResponseOps.serverError r = none := by
      simp [rawResponseOps, errorServerError, hcode]
    constructor <;>
      simp [Process, vkResponseProcessor.Raw, vkResponseProcessor.To, hd, hs, Raw.bytes]
  · intro e he
    simp only [Process] at he
    show (vkResponseProcessor.Raw ⟨⟨content, closable⟩⟩ dec).reDecoded = false
    simp [vkResponseProcessor.Raw, he]

/-- C5 witness: an envelope carrying a populated error object at a
concrete input. -/
theorem raw_mode_error_check_before_redecode_witness :
    decodeRawResponse "\x7b\"error\":\x7b\"error_code\":10\x7d\x7d" =
      .ok ⟨⟨10, "", []⟩, "", none⟩ ∧
    (⟨⟨10, "", []⟩, "", none⟩ : RawResponse).error.code ≠ 0 ∧
    ((Process ⟨some "\x7b\"error\":\x7b\"error_code\":10\x7d\x7d", true⟩).Raw
        (fun _ => Except.ok (0 : Nat))).result =
      .error (.serverError ⟨10, "", []⟩) ∧
    ((Process ⟨some "\x7b\"error\":\x7b\"error_code\":10\x7d\x7d", true⟩).Raw
        (fun _ => Except.ok (0 : Nat))).reDecoded = false :=
  ⟨rfl, by decide,
    ((raw_mode_error_check_before_redecode ⟨some "\x7b\"error\":\x7b\"error_code\":10\x7d\x7d", true⟩
        (fun _ => Except.ok (0 : Nat))).1
      "\x7b\"error\":\x7b\"error_code\":10\x7d\x7d" ⟨⟨10, "", []⟩, "", none⟩ rfl rfl (by decide)).1,
    ((raw_mode_error_check_before_redecode ⟨some "\x7b\"error\":\x7b\"error_code\":10\x7d\x7d", true⟩
        (fun _ => Except.ok (0 : Nat))).1
      "\x7b\"error\":\x7b\"error_code\":10\x7d\x7d" ⟨⟨10, "", []⟩, "", none⟩ rfl rfl (by decide)).2⟩

/-- C10: for an input whose envelope decodes successfully with neither a
populated error nor a `response` member (the captured fragment stays
empty), the raw path fails in the secondary re-decode — unmarshalling
the empty fragment is a decode error for every target — while the
full-envelope path on the same input returns no error. -/
theorem empty_envelope_raw_fails_to_succeeds {υ : Type} (s : ByteStream)
    (dec : Json → Except String υ) (body : String) (r : RawResponse)
    (h1 : s.content = some body) (h2 : decodeRawResponse body = .ok r)
    (h3 : r.error = zeroErrorInfo) (h4 : r.response = "") :
    ((Process s).Raw dec).result = .error (.decodeError "invalid JSON input") ∧
    ((Process s).To rawResponseOps zeroRawResponse).result = .ok r := by
  obtain ⟨content, closable⟩ := s
  simp only at h1
  subst h1
  have hd : rawResponseOps.decode body zeroRawResponse = .ok r := h2
  have hs : rawResponseOps.serverError r = none := by
    simp [rawResponseOps, errorServerError, h3, zeroErrorInfo]
  have hTo : ((Process ⟨some body, closable⟩).To rawResponseOps zeroRawResponse).result =
      .ok r := by
    simp [Process, vkResponseProcessor.To, hd, hs]
  refine ⟨?_, hTo⟩
  have hun : jsonUnmarshal r.response dec = .error "invalid JSON input" := by
    rw [h4]
    rfl
  simp only [Process] at hTo
  show (vkResponseProcessor.Raw ⟨⟨some body, closable⟩⟩ dec).result = _
  simp [vkResponseProcessor.Raw, hTo, Raw.bytes, hun, Except.mapError]

/-- C10 witness: the empty envelope at a concrete input. -/
theorem empty_envelope_raw_fails_to_succeeds_witness :
    (⟨some "{}", false⟩ : ByteStream).content = some "{}" ∧
    decodeRawResponse "{}" = .ok zeroRawResponse ∧
    zeroRawResponse.error = zeroErrorInfo ∧
    zeroRawResponse.response = "" ∧
    ((Process ⟨some "{}", false⟩).Raw (fun _ => Except.ok (0 : Nat))).result =
      .error (.decodeError "invalid JSON input") ∧
    ((Process ⟨some "{}", false⟩).To rawResponseOps zeroRawResponse).result =
      .ok zeroRawResponse :=
  ⟨rfl, rfl, rfl, rfl,
    (empty_envelope_raw_fails_to_succeeds ⟨some "{}", false⟩ (fun _ => Except.ok (0 : Nat))
      "{}" zeroRawResponse rfl rfl rfl rfl).1,
    (empty_envelope_raw_fails_to_succeeds ⟨some "{}", false⟩ (fun _ => Except.ok (0 : Nat))
      "{}" zeroRawResponse rfl rfl rfl rfl).2⟩

/-- C6: when the injected transport returns a status code other than
200, `Client.Do` returns exactly the fixed bad-response-code sentinel,
whatever the body holds, and never runs the body decode pipeline; when
the transport itself reports a failure, `Client.Do` returns that failure
value unchanged (and likewise never touches the body). -/
theorem client_do_bad_status_and_transport_errors {τ : Type}
    (http : HTTPRequestDescriptor → Except VKErr HTTPResponse)
    (request : Request) (ops : ResponseOps τ) (t : τ) :
    (∀ res, http (Request.HTTP request) = .ok res → res.statusCode ≠ 200 →
      ((Client.mk http).Do request ops t).result = .error .badResponseCode ∧
      ((Client.mk http).Do request ops t).bodyProcessed = false) ∧
    (∀ e, http (Request.HTTP request) = .error e →
      ((Client.mk http).Do request ops t).result = .error e ∧
      ((Client.mk http).Do request ops t).bodyProcessed = false) := by
  constructor
  · intro res hres hcode
    constructor <;> simp [Client.Do, hres, hcode]
  · intro e he
    constructor <;> simp [Client.Do, he]

/-- C6 witness: a 400 reply with a decodable body, and a transport
failure, at concrete inputs. -/
theorem client_do_bad_status_and_transport_errors_witness :
    ((fun _ => Except.ok ⟨400, ⟨some "{}", true⟩⟩ :
        HTTPRequestDescriptor → Except VKErr HTTPResponse)
      (Request.HTTP ⟨"users.get", "", []⟩) = .ok ⟨400, ⟨some "{}", true⟩⟩) ∧
    ((400 : Nat) ≠ 200) ∧
    ((Client.mk (fun _ => Except.ok ⟨400, ⟨some "{}", true⟩⟩)).Do ⟨"users.get", "", []⟩
      rawResponseOps zeroRawResponse).result = .error .badResponseCode ∧
    ((fun _ => Except.error VKErr.ioError :
        HTTPRequestDescriptor → Except VKErr HTTPResponse)
      (Request.HTTP ⟨"users.get", "", []⟩) = .error VKErr.ioError) ∧
    ((Client.mk (fun _ => Except.error VKErr.ioError)).Do ⟨"users.get", "", []⟩
      rawResponseOps zeroRawResponse).result = .error VKErr.ioError :=
  ⟨rfl, by decide,
    ((client_do_bad_status_and_transport_errors
        (fun _ => Except.ok ⟨400, ⟨some "{}", true⟩⟩) ⟨"users.get", "", []⟩
        rawResponseOps zeroRawResponse).1 ⟨400, ⟨some "{}", true⟩⟩ rfl (by decide)).1,
    rfl,
    ((client_do_bad_status_and_transport_errors
        (fun _ => Except.error VKErr.ioError) ⟨"users.get", "", []⟩
        rawResponseOps zeroRawResponse).2 VKErr.ioError rfl).1⟩

/-- C9: `Client.Do` attaches the Request to the target before invoking
the transport, so on the failure paths that precede any decoding — a
transport failure and a bad status — the final target state is exactly
`setRequest request` applied to the initial target and nothing else; for
the concrete `RawResponse` target this means the originating Request is
retained on the target on those paths. -/
theorem client_do_attaches_request_first {τ : Type}
    (http : HTTPRequestDescriptor → Except VKErr HTTPResponse)
    (request : Request) (ops : ResponseOps τ) (t : τ) (t0 : RawResponse) :
    (∀ e, http (Request.HTTP request) = .error e →
      ((Client.mk http).Do request ops t).target = ops.setRequest request t) ∧
    (∀ res, http (Request.HTTP request) = .ok res → res.statusCode ≠ 200 →
      ((Client.mk http).Do request ops t).target = ops.setRequest request t) ∧
    (∀ e, http (Request.HTTP request) = .error e →
      ((Client.mk http).Do request rawResponseOps t0).target.request = some request) ∧
    (∀ res, http (Request.HTTP request) = .ok res → res.statusCode ≠ 200 →
      ((Client.mk http).Do request rawResponseOps t0).target.request = some request) := by
  refine ⟨?_, ?_, ?_, ?_⟩
  · intro e he
    simp [Client.Do, he]
  · intro res hres hcode
    simp [Client.Do, hres, hcode]
  · intro e he
    simp [Client.Do, he, rawResponseOps]
  · intro res hres hcode
    simp [Client.Do, hres, hcode, rawResponseOps]

/-- C9 witness: transport-failure and bad-status paths at concrete
inputs, with the generic target instantiated by `RawResponse`. -/
theorem client_do_attaches_request_first_witness :
    ((fun _ => Except.error VKErr.ioError :
        HTTPRequestDescriptor → Except VKErr HTTPResponse)
      (Request.HTTP ⟨"users.get", "", []⟩) = .error VKErr.ioError) ∧
    ((Client.mk (fun _ => Except.error VKErr.ioError)).Do ⟨"users.get", "", []⟩
        rawResponseOps zeroRawResponse).target =
      rawResponseOps.setRequest ⟨"users.get", "", []⟩ zeroRawResponse ∧
    ((Client.mk (fun _ => Except.error VKErr.ioError)).Do ⟨"users.get", "", []⟩
        rawResponseOps zeroRawResponse).target.request = some ⟨"users.get", "", []⟩ ∧
    ((fun _ => Except.ok ⟨404, ⟨some "{}", true⟩⟩ :
        HTTPRequestDescriptor → Except VKErr HTTPResponse)
      (Request.HTTP ⟨"users.get", "", []⟩) = .ok ⟨404, ⟨some "{}", true⟩⟩) ∧
    ((404 : Nat) ≠ 200) ∧
    ((Client.mk (fun _ => Except.ok ⟨404, ⟨some "{}", true⟩⟩)).Do ⟨"users.get", "", []⟩
        rawResponseOps zeroRawResponse).target.request = some ⟨"users.get", "", []⟩ :=
  ⟨rfl,
    (client_do_attaches_request_first (fun _ => Except.error VKErr.ioError)
      ⟨"users.get", "", []⟩ rawResponseOps zeroRawResponse zeroRawResponse).1
      VKErr.ioError rfl,
    (client_do_attaches_request_first (fun _ => Except.error VKErr.ioError)
      ⟨"users.get", "", []⟩ rawResponseOps zeroRawResponse zeroRawResponse).2.2.1
      VKErr.ioError rfl,
    rfl, by decide,
    (client_do_attaches_request_first (fun _ => Except.ok ⟨404, ⟨some "{}", true⟩⟩)
      ⟨"users.get", "", []⟩ rawResponseOps zeroRawResponse zeroRawResponse).2.2.2
      ⟨404, ⟨some "{}", true⟩⟩ rfl (by decide)⟩

/-- Code points are below the Unicode bound. -/
theorem char_toNat_lt (c : Char) : c.toNat < 1114112 := by
  rcases c.valid with h | ⟨_, h2⟩
  · exact Nat.lt_trans h (by norm_num)
  · exact h2

/-- UTF-8 encoding produces bytes. -/
theorem utf8Bytes_lt_256 (c : Char) : ∀ b ∈ utf8Bytes c, b < 256 := by
  intro b hb
  have hc : c.toNat < 1114112 := char_toNat_lt c
  simp only [utf8Bytes] at hb
  split_ifs at hb with h1 h2 h3 <;> simp [List.mem_cons] at hb <;>
    rcases hb with rfl | rfl | rfl | rfl <;> omega

set_option maxRecDepth 8192 in
/-- Query escaping of a byte never emits a control character. -/
theorem escQueryByte_not_ctl : ∀ b < 256, (escQueryByte b).all (fun c => !isCtlChar c) = true := by
  decide

set_option maxRecDepth 8192 in
/-- Path escaping of a byte never emits a control character. -/
theorem escPathByte_not_ctl : ∀ b < 256, (escPathByte b).all (fun c => !isCtlChar c) = true := by
  decide

/-- Query escaping of a string never emits a control character. -/
theorem queryEscapeChars_not_ctl (cs : List Char) :
    ∀ x ∈ queryEscapeChars cs, isCtlChar x = false := by
  intro x hx
  simp only [queryEscapeChars, List.mem_flatMap] at hx
  obtain ⟨c, _, b, hb, hxb⟩ := hx
  have h := escQueryByte_not_ctl b (utf8Bytes_lt_256 c b hb)
  rw [List.all_eq_true] at h
  simpa using h x hxb

/-- Path escaping of a string never emits a control character. -/
theorem pathEscapeChars_not_ctl (cs : List Char) :
    ∀ x ∈ pathEscapeChars cs, isCtlChar x = false := by
  intro x hx
  simp only [pathEscapeChars, List.mem_flatMap] at hx
  obtain ⟨c, _, b, hb, hxb⟩ := hx
  have h := escPathByte_not_ctl b (utf8Bytes_lt_256 c b hb)
  rw [List.all_eq_true] at h
  simpa using h x hxb

/-- Joining control-free fragments with `&` stays control-free. -/
theorem encodeParts_not_ctl : ∀ (parts : List (List Char)),
    (∀ p ∈ parts, ∀ x ∈ p, isCtlChar x = false) →
    ∀ x ∈ encodeParts parts, isCtlChar x = false := by
  intro parts
  induction parts with
  | nil =>
    intro _ x hx
    simp [encodeParts] at hx
  | cons p rest ih =>
    intro hp x hx
    cases rest with
    | nil =>
      rw [show encodeParts [p] = p from rfl] at hx
      exact hp p (by simp) x hx
    | cons q rest2 =>
      rw [show encodeParts (p :: q :: rest2) = p ++ '&' :: encodeParts (q :: rest2) from rfl]
        at hx
      rcases List.mem_append.1 hx with h | h
      · exact hp p (by simp) x h
      · rcases List.mem_cons.1 h with rfl | h2
        · decide
        · exact ih (fun p' hp' => hp p' (by simp [hp'])) x h2

/-- An encoded parameter set never contains a control character. -/
theorem valuesEncodeChars_not_ctl (vals : Values) :
    ∀ x ∈ valuesEncodeChars vals, isCtlChar x = false := by
  unfold valuesEncodeChars
  apply encodeParts_not_ctl
  intro p hp x hx
  simp only [List.mem_flatMap, List.mem_map] at hp
  obtain ⟨kv, _, v, _, rfl⟩ := hp
  unfold encodePair at hx
  rcases List.mem_append.1 hx with h | h
  · exact queryEscapeChars_not_ctl _ x h
  · rcases List.mem_cons.1 h with rfl | h2
    · decide
    · exact queryEscapeChars_not_ctl _ x h2

/-- C8: Request-to-HTTP conversion is total on caller input: the
internal `must` abort path is unreachable for every caller-supplied
Request, because the URL string built from the fixed scheme and host,
the escaped path and the escaped query never contains a control
character, which is the only way the final `url` re-parse inside
`http.NewRequest` could fail. -/
theorem request_http_never_aborts (r : Request) : newRequestFails r = false := by
  have hmem : ∀ x ∈ urlChars (Request.HTTP r), isCtlChar x = false := by
    intro x hx
    unfold urlChars at hx
    have hq : ((Request.HTTP r).rawQuery.data.isEmpty = true) ∨
        ((Request.HTTP r).rawQuery.data.isEmpty = false) := by
      cases (Request.HTTP r).rawQuery.data.isEmpty <;> simp
    have hscheme : ∀ y ∈ (Request.HTTP r).scheme.data, isCtlChar y = false := by
      intro y hy
      rw [show (Request.HTTP r).scheme = defaultScheme from rfl] at hy
      revert y
      decide
    have hsep : ∀ y ∈ (String.data "://"), isCtlChar y = false := by decide
    have hhost : ∀ y ∈ (Request.HTTP r).host.data, isCtlChar y = false := by
      intro y hy
      rw [show (Request.HTTP r).host = defaultHost from rfl] at hy
      revert y
      decide
    rcases List.mem_append.1 hx with hx | hx
    · rcases List.mem_append.1 hx with hx | hx
      · rcases List.mem_append.1 hx with hx | hx
        · rcases List.mem_append.1 hx with hx | hx
          · exact hscheme x hx
          · exact hsep x hx
        · exact hhost x hx
      · exact pathEscapeChars_not_ctl _ x hx
    · rcases hq with hq | hq
      · rw [hq] at hx
        simp at hx
      · rw [hq] at hx
        simp only [Bool.false_eq_true, if_false] at hx
        rcases List.mem_cons.1 hx with rfl | hx2
        · decide
        · rw [show (Request.HTTP r).rawQuery.data =
              valuesEncodeChars (requestValues r) from rfl] at hx2
          exact valuesEncodeChars_not_ctl _ x hx2
  unfold newRequestFails
  rcases h : (urlChars (Request.HTTP r)).any isCtlChar with _ | _
  · rfl
  · exfalso
    rw [List.any_eq_true] at h
    obtain ⟨x, hx, hct⟩ := h
    rw [hmem x hx] at hct
    exact Bool.false_ne_true hct
